import Mathlib

/-!
# A verification model of the `vector` 2-D rasterizer package

This file is a shallow embedding, in Lean 4, of the Go package
`golang.org/x/image/vector` (file `vector.go`), together with theorems about
the embedded definitions.

Modelling conventions:

* `float32` path coordinates and buffer values are modelled by exact rational
  numbers (`ℚ`): the embedding captures the ideal (infinite-precision)
  arithmetic that the source's floating-point code approximates.
* Go `int` values are modelled by `ℤ`.  Go `uint32`/`uint16`/`uint8`
  arithmetic is modelled by `ℕ` with an explicit `% 2 ^ 32` (resp.
  `% 2 ^ 16`, `% 256`) wherever the source performs a machine operation that
  can wrap.
* A Go run-time panic (negative `make` length, out-of-range reslice) is
  modelled by `Option.none`.
* Slices are modelled by lists of values.  A slice's capacity is not
  observable in the value model: `make([]T, n)` and "reslice to `n` and zero
  every element" both yield `n` zeros, so `Reset` is modelled as producing
  `List.replicate n 0` in either case, and the `n > cap` test survives only
  in its observable consequence (`n < 0` panics on the reslice branch and the
  `n > cap` branch is unreachable for `n < 0` since capacities are
  non-negative).
* The two line-segment deposition kernels (`fixedLineTo`, `floatingLineTo` in
  `raster_fixed.go`/`raster_floating.go`) and the accumulation kernels
  (`fixedAccumulate*`, `floatingAccumulate*` in the generated files) are not
  part of the sources under verification; they are modelled from the
  specification's description (each such definition is marked
  `Modelled from the spec:`).
-/

namespace VectorGfx

/-- A 2-D point, modelling `f32.Vec2` with exact rational coordinates. -/
abbrev Vec2 : Type := ℚ × ℚ

/-- `image.Point`, a pair of Go `int`s. -/
abbrev Point : Type := ℤ × ℤ

/-- `image.Rectangle`.  The Go zero value has both corners at the origin. -/
structure Rect where
  min : Point := (0, 0)
  max : Point := (0, 0)
deriving DecidableEq, Repr

/-- `draw.Op` from the standard library's `image/draw` package.
`Over` is the numeric zero value (`draw.Over = 0`). -/
inductive Op where
  | Over : Op
  | Src : Op
deriving DecidableEq, Repr

/-- `const floatingPointMathThreshold = 2048` (vector.go line 51). -/
def floatingPointMathThreshold : ℤ := 2048

/-- `midPoint` (vector.go lines 53–58): componentwise average. -/
def midPoint (p q : Vec2) : Vec2 :=
  ((p.1 + q.1) * (1 / 2), (p.2 + q.2) * (1 / 2))

/-- `lerp` (vector.go lines 60–65): componentwise linear interpolation. -/
def lerp (t : ℚ) (p q : Vec2) : Vec2 :=
  (p.1 + t * (q.1 - p.1), p.2 + t * (q.2 - p.2))

/-- `clamp(i, width int32) uint` (vector.go lines 67–75).

The Go conversion `uint(·)` wraps negative arguments modulo `2 ^ 64`; it is
only ever reached with a non-negative argument for `i` (guarded by `i < 0`)
and the claims under verification restrict `width` to be non-negative, where
`Int.toNat` agrees with the Go conversion exactly. -/
def clamp (i width : ℤ) : ℕ :=
  if i < 0 then 0
  else if i < width then i.toNat
  else width.toNat

/-- `devSquared(a, b, c)` (vector.go lines 261–265): the curvature measure
`(a.x - 2*b.x + c.x)^2 + (a.y - 2*b.y + c.y)^2`. -/
def devSquared (a b c : Vec2) : ℚ :=
  let devx := a.1 - 2 * b.1 + c.1
  let devy := a.2 - 2 * b.2 + c.2
  devx * devx + devy * devy

/-- The `Rasterizer` struct (vector.go lines 89–120).  Field defaults are the
Go zero values. -/
structure Rasterizer where
  bufF32 : List ℚ := []
  bufU32 : List ℕ := []
  useFloatingPointMath : Bool := false
  size : Point := (0, 0)
  first : Vec2 := (0, 0)
  pen : Vec2 := (0, 0)
  DrawOp : Op := .Over
deriving DecidableEq, Repr

/-- The Go zero value of `Rasterizer` (all fields zero). -/
def Rasterizer.zero : Rasterizer := {}

/-- `setUseFloatingPointMath` (vector.go lines 134–157).

In Go, when `n := z.size.X * z.size.Y` exceeds the active buffer's capacity a
fresh zeroed slice of length `n` is allocated, and otherwise the buffer is
resliced to length `n` and zeroed element by element; both give `n` zeros.
When `n < 0` the `n > cap` test is false (capacities are non-negative) and
the reslice `buf[:n]` panics, modelled by `none`. -/
def Rasterizer.setUseFloatingPointMath (z : Rasterizer) (b : Bool) :
    Option Rasterizer :=
  let z := { z with useFloatingPointMath := b }
  let n : ℤ := z.size.1 * z.size.2
  if n < 0 then none
  else if b then some { z with bufF32 := List.replicate n.toNat 0 }
  else some { z with bufU32 := List.replicate n.toNat 0 }

/-- `Reset(w, h)` (vector.go lines 125–132). -/
def Rasterizer.Reset (z : Rasterizer) (w h : ℤ) : Option Rasterizer :=
  Rasterizer.setUseFloatingPointMath
    { z with size := (w, h), first := (0, 0), pen := (0, 0), DrawOp := .Over }
    (decide (floatingPointMathThreshold < w) ||
      decide (floatingPointMathThreshold < h))

/-- `NewRasterizer(w, h)` (vector.go lines 79–83): `Reset` on a fresh zero
value. -/
def NewRasterizer (w h : ℤ) : Option Rasterizer :=
  Rasterizer.zero.Reset w h

/-- `Size()` (vector.go lines 160–162). -/
def Rasterizer.Size (z : Rasterizer) : Point := z.size

/-- `Bounds()` (vector.go lines 166–168): `image.Rectangle{Max: z.size}`. -/
def Rasterizer.Bounds (z : Rasterizer) : Rect := { max := z.size }

/-- `Pen()` (vector.go lines 172–174). -/
def Rasterizer.Pen (z : Rasterizer) : Vec2 := z.pen

/-- `MoveTo(a)` (vector.go lines 184–187). -/
def Rasterizer.MoveTo (z : Rasterizer) (a : Vec2) : Rasterizer :=
  { z with first := a, pen := a }

/-! ## Bézier flattening (vector.go lines 200–246)

`QuadTo` and `CubeTo` are modelled at the level of the sequence of `LineTo`
target points they emit; the first argument `a` is the pen position when the
method is called (`a := z.pen` in the source). -/

/-- The flattening loop body shared by `QuadTo` and `CubeTo`
(vector.go lines 210–216 and 234–243): starting from accumulator `t`, run
`k` iterations, each first advancing `t` by `nInv` and then emitting the
point `f t`. -/
def flattenLoop (f : ℚ → Vec2) (nInv : ℚ) : ℕ → ℚ → List Vec2
  | 0, _ => []
  | k + 1, t => f (t + nInv) :: flattenLoop f nInv k (t + nInv)

/-- `n := 1 + int(math.Sqrt(math.Sqrt(tol*float64(devsq))))` with `tol = 3`
(vector.go lines 208–209 and 232–233), in exact arithmetic: for a rational
`x ≥ 0`, `⌊√√x⌋ = Nat.sqrt (Nat.sqrt ⌊x⌋)`. -/
def segmentCount (devsq : ℚ) : ℕ :=
  1 + Nat.sqrt (Nat.sqrt (⌊(3 : ℚ) * devsq⌋).toNat)

/-- The literal `0.333` against which `devsq` is compared
(vector.go lines 207 and 231), modelled at its decimal value. -/
def flattenThreshold : ℚ := 333 / 1000

/-- `QuadTo(b, c)` (vector.go lines 204–219), as the list of `LineTo` target
points it emits when the pen is at `a`. -/
def QuadToPoints (a b c : Vec2) : List Vec2 :=
  let devsq := devSquared a b c
  (if flattenThreshold ≤ devsq then
    let n := segmentCount devsq
    flattenLoop (fun t => lerp t (lerp t a b) (lerp t b c))
      (1 / (n : ℚ)) (n - 1) 0
  else []) ++ [c]

/-- `CubeTo(b, c, d)` (vector.go lines 225–246), as the list of `LineTo`
target points it emits when the pen is at `a`.  The source computes
`devsq := devSquared(a, b, d)` and replaces it by `devSquared(a, c, d)` when
the latter is larger, i.e. takes the maximum. -/
def CubeToPoints (a b c d : Vec2) : List Vec2 :=
  let devsq := max (devSquared a b d) (devSquared a c d)
  (if flattenThreshold ≤ devsq then
    let n := segmentCount devsq
    flattenLoop
      (fun t =>
        lerp t (lerp t (lerp t a b) (lerp t b c))
          (lerp t (lerp t b c) (lerp t c d)))
      (1 / (n : ℚ)) (n - 1) 0
  else []) ++ [d]

/-- De Casteljau evaluation of the quadratic Bézier with control points
`a`, `b`, `c` at parameter `t` (the claim's specification-side curve
evaluation). -/
def deCasteljauQuad (a b c : Vec2) (t : ℚ) : Vec2 :=
  lerp t (lerp t a b) (lerp t b c)

/-- De Casteljau evaluation of the cubic Bézier with control points
`a`, `b`, `c`, `d` at parameter `t`. -/
def deCasteljauCube (a b c d : Vec2) (t : ℚ) : Vec2 :=
  lerp t (lerp t (lerp t a b) (lerp t b c))
    (lerp t (lerp t b c) (lerp t c d))

/-! ## Per-pixel compositing arithmetic (vector.go lines 434–476)

The generic `rasterizeOpOver`/`rasterizeOpSrc` paths read 16-bit-range
channel values through the `image.Image`/`draw.Image` interfaces and compute
each output channel in Go `uint32` arithmetic, narrowing with a `uint16`
conversion.  The per-channel computation is embedded here with every machine
operation's wrap-around made explicit. -/

/-- One channel of `rasterizeOpOver` (vector.go lines 446–450):
`a := 0xffff - (sa * ma / 0xffff)`; `out = uint16((d*a + s*ma) / 0xffff)`,
all in `uint32` arithmetic.  The subtraction is Go unsigned subtraction,
which wraps modulo `2 ^ 32`. -/
def rasterizeOpOverChannel (d s sa ma : ℕ) : ℕ :=
  let a := (0xffff + 2 ^ 32 - sa * ma % 2 ^ 32 / 0xffff) % 2 ^ 32
  (d * a % 2 ^ 32 + s * ma % 2 ^ 32) % 2 ^ 32 / 0xffff % 2 ^ 16

/-- One channel of `rasterizeOpSrc` (vector.go lines 468–471):
`out = uint16(s * ma / 0xffff)` in `uint32` arithmetic. -/
def rasterizeOpSrcChannel (s ma : ℕ) : ℕ :=
  s * ma % 2 ^ 32 / 0xffff % 2 ^ 16

/-- The four output channels of one `rasterizeOpOver` pixel
(vector.go lines 445–450). -/
def rasterizeOpOverPixel (sr sg sb sa dr dg db da ma : ℕ) : ℕ × ℕ × ℕ × ℕ :=
  (rasterizeOpOverChannel dr sr sa ma, rasterizeOpOverChannel dg sg sa ma,
    rasterizeOpOverChannel db sb sa ma, rasterizeOpOverChannel da sa sa ma)

/-- The four output channels of one `rasterizeOpSrc` pixel
(vector.go lines 468–471). -/
def rasterizeOpSrcPixel (sr sg sb sa ma : ℕ) : ℕ × ℕ × ℕ × ℕ :=
  (rasterizeOpSrcChannel sr ma, rasterizeOpSrcChannel sg ma,
    rasterizeOpSrcChannel sb ma, rasterizeOpSrcChannel sa ma)

/-! ## Line-segment edge deposition (spec §4.4)

The deposition kernels `fixedLineTo` and `floatingLineTo` live in
`raster_fixed.go`/`raster_floating.go`, which are not among the sources; they
are modelled here from the specification's description of edge deposition, in
ideal arithmetic.  The specification's signed-area convention (spec §3) makes
the buffer hold per-pixel deltas whose left-to-right prefix sum recovers the
coverage, so each touched pixel receives the difference between its own
clipped-trapezoid coverage and its left neighbour's. -/

/-- Modelled from the spec: the `x` coordinate of the segment `p → q` at
height `v` (spec §4.4 step 3), for a non-horizontal segment. -/
def xAt (p q : Vec2) (v : ℚ) : ℚ :=
  p.1 + (v - p.2) * (q.1 - p.1) / (q.2 - p.2)

/-- Modelled from the spec: for the sub-segment spanning a row slab of
height `dy`, with horizontal extent from `x0` to `x1` (`x0 ≤ x1`), the area
of the part of the slab lying to the left of the vertical line `x = e` and to
the right of the segment (the integral of `max 0 (e - xSeg v)` over the
slab, with `xSeg` affine in `v`). -/
def areaUpTo (dy x0 x1 e : ℚ) : ℚ :=
  if e ≤ x0 then 0
  else if x1 ≤ e then dy * (e - (x0 + x1) / 2)
  else dy * (e - x0) ^ 2 / (2 * (x1 - x0))

/-- Modelled from the spec: the coverage contributed to pixel column `xi` by
the row's sub-segment — the trapezoid between the segment and the pixel's
right edge intersected with the pixel's unit square (spec §4.4 step 4).
Columns entirely to the right of the sub-segment get the full `dy`. -/
def pixelCov (dy x0 x1 : ℚ) (xi : ℤ) : ℚ :=
  areaUpTo dy x0 x1 ((xi : ℚ) + 1) - areaUpTo dy x0 x1 (xi : ℚ)

/-- Modelled from the spec: the signed-area delta deposited at column `xi`,
so that the prefix sum over the row recovers `pixelCov` (spec §3). -/
def pixelDelta (dy x0 x1 : ℚ) (xi : ℤ) : ℚ :=
  pixelCov dy x0 x1 xi - pixelCov dy x0 x1 (xi - 1)

/-- Add `v` to `buf[i]`; out-of-range indices are dropped (they correspond to
the source's bounds guards). -/
def addAt (buf : List ℚ) (i : ℕ) (v : ℚ) : List ℚ :=
  buf.set i (buf.getD i 0 + v)

/-- Modelled from the spec: deposit one row's deltas into the float buffer.
Column indices pass through `clamp xi w` (spec §4.4 step 5); a contribution
clamped to column `w` lands outside the row and is dropped, which the spec
licenses since such contributions accumulate nothing visible. -/
def depositRowF (w : ℤ) (dir dy x0 x1 : ℚ) (yi : ℤ) (buf : List ℚ) :
    List ℚ :=
  (List.range (⌈x1⌉ - ⌊x0⌋ + 1).toNat).foldl
    (fun bf k =>
      let xi := ⌊x0⌋ + (k : ℤ)
      let col := clamp xi w
      if col < w.toNat then
        addAt bf ((yi * w).toNat + col) (dir * pixelDelta dy x0 x1 xi)
      else bf)
    buf

/-- Modelled from the spec: floating-point deposition of the segment
`p → q` into a `w × h` buffer (spec §4.4 steps 1–5).  A horizontal segment
deposits nothing.  The direction sign is that of `q.y - p.y`; the endpoints
are swapped so that `y` increases; rows are clipped to `[0, h)` and each
row's sub-segment extent is clipped to the row slab. -/
def depositSegF (w h : ℤ) (p q : Vec2) (buf : List ℚ) : List ℚ :=
  if q.2 = p.2 then buf
  else
    let dir : ℚ := if q.2 < p.2 then -1 else 1
    let a := if q.2 < p.2 then q else p
    let b := if q.2 < p.2 then p else q
    let y0 := max ⌊a.2⌋ 0
    let y1 := min ⌈b.2⌉ h
    (List.range (y1 - y0).toNat).foldl
      (fun bf k =>
        let yi := y0 + (k : ℤ)
        let yLo := max a.2 (yi : ℚ)
        let yHi := min b.2 ((yi : ℚ) + 1)
        let xA := xAt a b yLo
        let xB := xAt a b yHi
        depositRowF w dir (yHi - yLo) (min xA xB) (max xA xB) yi bf)
      buf

/-- Modelled from the spec: the fixed-point scale.  The spec fixes no
numeric value ("the scale factor is chosen so that one pixel's maximum
signed area fits", spec §4.4); any positive scale realises the stated
semantics and `2 ^ 12` is used here. -/
def fixedScale : ℕ := 2 ^ 12

/-- Add the signed scaled value `v` to `buf[i]` with Go `uint32`
wrap-around; out-of-range indices are dropped. -/
def addAtU (buf : List ℕ) (i : ℕ) (v : ℤ) : List ℕ :=
  buf.set i ((((buf.getD i 0 : ℤ) + v) % 2 ^ 32).toNat)

/-- Modelled from the spec: deposit one row's deltas into the fixed-point
buffer, each delta rounded to the scaled integer representation. -/
def depositRowU (w : ℤ) (dir dy x0 x1 : ℚ) (yi : ℤ) (buf : List ℕ) :
    List ℕ :=
  (List.range (⌈x1⌉ - ⌊x0⌋ + 1).toNat).foldl
    (fun bf k =>
      let xi := ⌊x0⌋ + (k : ℤ)
      let col := clamp xi w
      if col < w.toNat then
        addAtU bf ((yi * w).toNat + col)
          (round (dir * pixelDelta dy x0 x1 xi * (fixedScale : ℚ)))
      else bf)
    buf

/-- Modelled from the spec: fixed-point deposition of the segment `p → q`,
with the same geometry as `depositSegF` (spec §4.4: both implementations
have identical ideal semantics). -/
def depositSegU (w h : ℤ) (p q : Vec2) (buf : List ℕ) : List ℕ :=
  if q.2 = p.2 then buf
  else
    let dir : ℚ := if q.2 < p.2 then -1 else 1
    let a := if q.2 < p.2 then q else p
    let b := if q.2 < p.2 then p else q
    let y0 := max ⌊a.2⌋ 0
    let y1 := min ⌈b.2⌉ h
    (List.range (y1 - y0).toNat).foldl
      (fun bf k =>
        let yi := y0 + (k : ℤ)
        let yLo := max a.2 (yi : ℚ)
        let yHi := min b.2 ((yi : ℚ) + 1)
        let xA := xAt a b yLo
        let xB := xAt a b yHi
        depositRowU w dir (yHi - yLo) (min xA xB) (max xA xB) yi bf)
      buf

/-- Modelled from the spec: `floatingLineTo` (spec §4.2, §4.4): deposit the
edge from the pen to `b` into the float buffer and set the pen to `b`. -/
def Rasterizer.floatingLineTo (z : Rasterizer) (b : Vec2) : Rasterizer :=
  { z with
    bufF32 := depositSegF z.size.1 z.size.2 z.pen b z.bufF32,
    pen := b }

/-- Modelled from the spec: `fixedLineTo` (spec §4.2, §4.4): deposit the
edge from the pen to `b` into the fixed-point buffer and set the pen to
`b`. -/
def Rasterizer.fixedLineTo (z : Rasterizer) (b : Vec2) : Rasterizer :=
  { z with
    bufU32 := depositSegU z.size.1 z.size.2 z.pen b z.bufU32,
    pen := b }

/-- `LineTo(b)` (vector.go lines 192–198): dispatch on the math mode. -/
def Rasterizer.LineTo (z : Rasterizer) (b : Vec2) : Rasterizer :=
  if z.useFloatingPointMath then z.floatingLineTo b else z.fixedLineTo b

/-- `ClosePath()` (vector.go lines 177–179): `z.LineTo(z.first)`. -/
def Rasterizer.ClosePath (z : Rasterizer) : Rasterizer :=
  z.LineTo z.first

/-! ## Accumulation and the opaque-source, alpha-destination `Src` path

The accumulation kernels (`fixedAccumulateMask`, `floatingAccumulateMask`,
`fixedAccumulateOpSrc`, `floatingAccumulateOpSrc`, …) are generated code not
among the sources; they are modelled from spec §4.5: per row, a left-to-right
prefix sum, the non-zero-winding coverage function, and packing to 16 bits
(mask) or 8 bits (direct destination write). -/

/-- Left-to-right running sums of a row, starting from accumulator `acc`. -/
def cumulSums : List ℚ → ℚ → List ℚ
  | [], _ => []
  | v :: vs, acc => (acc + v) :: cumulSums vs (acc + v)

/-- Left-to-right running sums of a row of integers. -/
def cumulSumsZ : List ℤ → ℤ → List ℤ
  | [], _ => []
  | v :: vs, acc => (acc + v) :: cumulSumsZ vs (acc + v)

/-- Reinterpret a Go `uint32` bit pattern as a signed `int32` value. -/
def toInt32 (u : ℕ) : ℤ :=
  if u % 2 ^ 32 < 2 ^ 31 then (u % 2 ^ 32 : ℤ)
  else (u % 2 ^ 32 : ℤ) - 2 ^ 32

/-- Modelled from the spec: the floating-mode 16-bit coverage value of an
accumulated signed area `a`: `round(min(|a|, 1) * 0xffff)` (spec §4.5). -/
def mask16F (a : ℚ) : ℕ :=
  (round (min |a| 1 * (0xffff : ℚ))).toNat

/-- Modelled from the spec: the fixed-mode 16-bit coverage value of an
accumulated scaled signed area `a`: `round(min(|a|, SCALE) * 0xffff /
SCALE)` (spec §4.5), written with integer round-half-up. -/
def mask16U (a : ℤ) : ℕ :=
  (min a.natAbs fixedScale * 0xffff + fixedScale / 2) / fixedScale

/-- Modelled from the spec: the 16-bit mask of a floating buffer, row by
row (`w` columns, `hh` rows). -/
def rowsMaskF (w : ℕ) : ℕ → List ℚ → List ℕ
  | 0, _ => []
  | hh + 1, buf =>
    (cumulSums (buf.take w) 0).map mask16F ++ rowsMaskF w hh (buf.drop w)

/-- Modelled from the spec: the 16-bit mask of a fixed-point buffer, row by
row, the `uint32` entries read as `int32` signed areas. -/
def rowsMaskU (w : ℕ) : ℕ → List ℕ → List ℕ
  | 0, _ => []
  | hh + 1, buf =>
    (cumulSumsZ ((buf.take w).map toInt32) 0).map mask16U ++
      rowsMaskU w hh (buf.drop w)

/-- The 16-bit mask of the rasterizer's active buffer. -/
def maskValues (z : Rasterizer) : List ℕ :=
  if z.useFloatingPointMath then
    rowsMaskF z.size.1.toNat z.size.2.toNat z.bufF32
  else rowsMaskU z.size.1.toNat z.size.2.toNat z.bufU32

/-- `accumulateMask` (vector.go lines 306–325): run the accumulation kernel
for the active math mode, staging the `uint32` mask in `bufU32` (in fixed
mode in place, in floating mode after resizing `bufU32` to `w*h`). -/
def Rasterizer.accumulateMask (z : Rasterizer) : Rasterizer :=
  { z with bufU32 := maskValues z }

/-- `image.Alpha`: one byte per pixel, with a row stride and bounds. -/
structure Alpha where
  pix : List ℕ := []
  stride : ℤ := 0
  rect : Rect := {}
deriving DecidableEq, Repr

/-- `(*image.Alpha).Bounds()`. -/
def Alpha.Bounds (m : Alpha) : Rect := m.rect

/-- `(*image.Alpha).PixOffset(x, y)`:
`(y - Rect.Min.Y) * Stride + (x - Rect.Min.X) * 1`. -/
def Alpha.PixOffset (m : Alpha) (x y : ℤ) : ℤ :=
  (y - m.rect.min.2) * m.stride + (x - m.rect.min.1) * 1

/-- Perform a list of `(index, value)` byte writes left to right. -/
def applyWrites (l : List (ℕ × ℕ)) (p : List ℕ) : List ℕ :=
  l.foldl (fun bf iv => bf.set iv.1 iv.2) p

/-- The writes of the staged loop of `rasterizeDstAlphaSrcOpaqueOpSrc`
(vector.go lines 385–394): for each `y < dy` and `x < dx`, write
`uint8(ma >> 8)` at `off + y*stride + x`, where `ma` is the mask entry at
`y*w + x`. -/
def stagedOpSrcWrites (buf : List ℕ) (w off stride dx dy : ℕ) :
    List (ℕ × ℕ) :=
  (List.range dy ×ˢ List.range dx).map fun yx =>
    (off + yx.1 * stride + yx.2, buf.getD (yx.1 * w + yx.2) 0 >>> 8 % 256)

/-- Modelled from the spec: `fixedAccumulateOpSrc`/`floatingAccumulateOpSrc`
(spec §4.5, "write `alpha >> 8` to an 8-bit destination"): the bytes the
fused kernel writes over the start of the destination's pixel slice. -/
def accumulateOpSrcBytes (z : Rasterizer) : List ℕ :=
  (maskValues z).map fun m => m >>> 8 % 256

/-- `rasterizeDstAlphaSrcOpaqueOpSrc` (vector.go lines 363–395).  When `r`
equals both the destination bounds and the rasterizer bounds, the fused
kernel converts the active buffer straight to destination bytes; otherwise
`accumulateMask` stages the mask in `bufU32` and the copy loop writes
`uint8(ma >> 8)` pixel by pixel. -/
def Rasterizer.rasterizeDstAlphaSrcOpaqueOpSrc (z : Rasterizer)
    (dst : Alpha) (r : Rect) : Alpha :=
  if r = dst.Bounds ∧ r = z.Bounds then
    { dst with
      pix := accumulateOpSrcBytes z ++
        dst.pix.drop (accumulateOpSrcBytes z).length }
  else
    let z' := z.accumulateMask
    let off := (dst.PixOffset r.min.1 r.min.2).toNat
    let dx := (r.max.1 - r.min.1).toNat
    let dy := (r.max.2 - r.min.2).toNat
    { dst with
      pix := applyWrites
        (stagedOpSrcWrites z'.bufU32 z.size.1.toNat off dst.stride.toNat
          dx dy)
        dst.pix }

/-- The membership form of "the active buffer is entirely zero". -/
def Rasterizer.activeBufferZero (z : Rasterizer) : Prop :=
  if z.useFloatingPointMath then ∀ x ∈ z.bufF32, x = 0
  else ∀ x ∈ z.bufU32, x = 0

instance (z : Rasterizer) : Decidable z.activeBufferZero := by
  unfold Rasterizer.activeBufferZero
  split <;> exact List.decidableBAll _ _

/-! ## Theorems -/

/-- C1: after `Reset(w, h)` — and hence after `NewRasterizer(w, h)`, which
is by definition `Reset` on the zero value — the pen and the subpath start
`first` are both `(0, 0)`, `DrawOp` is `Over`, and every element of the
active buffer (`bufF32` if floating-point math is selected, `bufU32`
otherwise) is zero. -/
theorem reset_initial_state (z : Rasterizer) (w h : ℤ) (z' : Rasterizer)
    (hz : z.Reset w h = some z') :
    z'.first = (0, 0) ∧ z'.pen = (0, 0) ∧ z'.DrawOp = .Over ∧
      z'.activeBufferZero ∧ NewRasterizer w h = Rasterizer.zero.Reset w h := by
  unfold Rasterizer.Reset Rasterizer.setUseFloatingPointMath at hz
  simp only [] at hz
  split at hz
  · exact absurd hz (by simp)
  · split at hz <;> injection hz with hz <;> subst hz <;>
      refine ⟨rfl, rfl, rfl, ?_, rfl⟩ <;>
      · unfold Rasterizer.activeBufferZero
        split <;>
          first
            | (intro x hx; exact List.eq_of_mem_replicate hx)
            | (exfalso; simp_all; omega)

/-- A concrete `Reset` result used by the C1 witness. -/
def resetSample : Rasterizer :=
  { size := (2, 3), bufU32 := List.replicate 6 0 }

/-- C1 witness: `Reset(2, 3)` on the zero rasterizer at a concrete input. -/
theorem reset_initial_state_witness :
    Rasterizer.zero.Reset 2 3 = some resetSample ∧
      (resetSample.first = (0, 0) ∧ resetSample.pen = (0, 0) ∧
        resetSample.DrawOp = .Over ∧ resetSample.activeBufferZero ∧
        NewRasterizer 2 3 = Rasterizer.zero.Reset 2 3) :=
  ⟨by decide, reset_initial_state Rasterizer.zero 2 3 resetSample (by decide)⟩

/-- C4: `Reset(w, h)` selects floating-point math iff `w > 2048` or
`h > 2048`, the threshold constant being exactly `2048`; otherwise
fixed-point math is selected. -/
theorem reset_math_mode (z : Rasterizer) (w h : ℤ) (z' : Rasterizer)
    (hz : z.Reset w h = some z') :
    (z'.useFloatingPointMath = true ↔ 2048 < w ∨ 2048 < h) ∧
      floatingPointMathThreshold = 2048 := by
  refine ⟨?_, rfl⟩
  unfold Rasterizer.Reset Rasterizer.setUseFloatingPointMath
    floatingPointMathThreshold at hz
  simp only [] at hz
  split at hz
  · exact absurd hz (by simp)
  · split at hz <;> injection hz with hz <;> subst hz <;>
      simp_all [Bool.or_eq_true, decide_eq_true_iff]

/-- A concrete `Reset` result used by the C4 witness: `5000 × 0` selects
floating-point math. -/
def resetWideSample : Rasterizer :=
  { size := (5000, 0), useFloatingPointMath := true }

/-- C4 witness: `Reset(5000, 0)` at a concrete input. -/
theorem reset_math_mode_witness :
    Rasterizer.zero.Reset 5000 0 = some resetWideSample ∧
      ((resetWideSample.useFloatingPointMath = true ↔
          2048 < (5000 : ℤ) ∨ 2048 < (0 : ℤ)) ∧
        floatingPointMathThreshold = 2048) :=
  ⟨by decide, reset_math_mode Rasterizer.zero 5000 0 resetWideSample (by decide)⟩

/-- A concrete `Reset` result used by the C7 counterexample: both
dimensions negative. -/
def resetNegativeSample : Rasterizer :=
  { size := (-2, -3), bufU32 := List.replicate 6 0 }

/-- C7 counterexample: `Reset(-2, -3)` is NOT rejected — it silently
succeeds (`w * h = 6 > cap`, so the Go code allocates a fresh buffer and
never reaches the panicking reslice) and leaves the rasterizer configured
with two negative dimensions. -/
theorem reset_negative_size_counterexample :
    Rasterizer.zero.Reset (-2) (-3) = some resetNegativeSample ∧
      resetNegativeSample.size.1 < 0 ∧ resetNegativeSample.size.2 < 0 := by
  decide

/-- C7 amended: `Reset(w, h)` fatally rejects the size (a Go panic on the
negative-length reslice, modelled by `none`) exactly when `w * h < 0`, that
is, when exactly one dimension is negative and the other positive.  Sizes
with `w * h ≥ 0` — including both dimensions negative, or one negative and
the other zero — are silently accepted and leave the rasterizer configured
with the given (possibly negative) dimensions. -/
theorem reset_rejects_iff (z : Rasterizer) (w h : ℤ) :
    z.Reset w h = none ↔ w * h < 0 := by
  unfold Rasterizer.Reset Rasterizer.setUseFloatingPointMath
  simp only []
  split
  · simp_all
  · split <;> simp_all

/-- C9: for every integer `i` and non-negative width `w`, `clamp(i, w)`
returns `i` clamped into `[0, w]`: `0` when `i < 0`, `i` when `0 ≤ i < w`,
and `w` when `i ≥ w`. -/
theorem clamp_spec (i w : ℤ) (hw : 0 ≤ w) :
    clamp i w ≤ w.toNat ∧ (i < 0 → clamp i w = 0) ∧
      (0 ≤ i → i < w → (clamp i w : ℤ) = i) ∧
      (w ≤ i → clamp i w = w.toNat) := by
  refine ⟨?_, ?_, ?_, ?_⟩ <;> (unfold clamp; split_ifs <;> omega)

/-- C9 witness: `clamp` at concrete inputs. -/
theorem clamp_spec_witness : clamp 7 4 = (4 : ℤ).toNat :=
  (clamp_spec 7 4 (by decide)).2.2.2 (by decide)

/-- C10: the zero-value `Rasterizer` is usable with zero-by-zero output:
`Size()` is `(0, 0)`, `Bounds()` is the empty rectangle from `(0, 0)` to
`(0, 0)`, `Pen()` is `(0, 0)`, and `DrawOp` is `Over` (the zero value of
`draw.Op`). -/
theorem zero_value_rasterizer :
    Rasterizer.zero.Size = (0, 0) ∧
      Rasterizer.zero.Bounds = { min := (0, 0), max := (0, 0) } ∧
      Rasterizer.zero.Pen = (0, 0) ∧ Rasterizer.zero.DrawOp = .Over :=
  ⟨rfl, rfl, rfl, rfl⟩

/-- C5: `ClosePath()` acts on the whole state exactly as `LineTo(first)`
does (this is its definition in the source), and in particular after
`MoveTo(a); LineTo(b)` — which leaves `first = a` — `ClosePath()` yields
the very same state (buffers and pen) as `LineTo(a)`. -/
theorem closePath_eq_lineTo_first :
    (∀ z : Rasterizer, z.ClosePath = z.LineTo z.first) ∧
      ∀ (z : Rasterizer) (a b : Vec2),
        ((z.MoveTo a).LineTo b).ClosePath = ((z.MoveTo a).LineTo b).LineTo a := by
  refine ⟨fun z => rfl, fun z a b => ?_⟩
  have hfirst : ((z.MoveTo a).LineTo b).first = a := by
    unfold Rasterizer.LineTo Rasterizer.MoveTo Rasterizer.floatingLineTo
      Rasterizer.fixedLineTo
    split <;> rfl
  unfold Rasterizer.ClosePath
  rw [hfirst]

theorem devSquared_nonneg (a b c : Vec2) : 0 ≤ devSquared a b c :=
  add_nonneg (mul_self_nonneg _) (mul_self_nonneg _)

/-- When `0 ≤ q < 1/3` the subdivision count is `1`: `3 * q < 1`, so the
fourth root floors to `0`. -/
theorem segmentCount_eq_one {q : ℚ} (h0 : 0 ≤ q) (h1 : q < 1 / 3) :
    segmentCount q = 1 := by
  unfold segmentCount
  have hf : ⌊(3 : ℚ) * q⌋ = 0 :=
    Int.floor_eq_zero_iff.mpr ⟨by linarith, by linarith⟩
  rw [hf]
  rfl

/-- C2: whenever the curvature estimate `devsq` is below `1/3` — for a
quadratic `devsq = devSquared a b c`, for a cubic
`devsq = max (devSquared a b d) (devSquared a c d)` — exactly one `LineTo`
is emitted, to the curve's endpoint, with no intermediate segments.  (The
source's branch constant is the float literal `0.333 < 1/3`; in the gap
`[0.333, 1/3)` the subdivision loop still runs zero times because `n = 1`.) -/
theorem flatten_below_third_single_lineTo :
    (∀ a b c : Vec2, devSquared a b c < 1 / 3 → QuadToPoints a b c = [c]) ∧
      ∀ a b c d : Vec2,
        max (devSquared a b d) (devSquared a c d) < 1 / 3 →
        CubeToPoints a b c d = [d] := by
  constructor
  · intro a b c h
    unfold QuadToPoints
    by_cases hth : flattenThreshold ≤ devSquared a b c
    · have h1 : segmentCount (devSquared a b c) = 1 :=
        segmentCount_eq_one (devSquared_nonneg a b c) h
      simp [hth, h1, flattenLoop]
    · simp [hth]
  · intro a b c d h
    unfold CubeToPoints
    by_cases hth : flattenThreshold ≤ max (devSquared a b d) (devSquared a c d)
    · have h0 : 0 ≤ max (devSquared a b d) (devSquared a c d) :=
        le_trans (devSquared_nonneg a b d) (le_max_left _ _)
      have h1 : segmentCount (max (devSquared a b d) (devSquared a c d)) = 1 :=
        segmentCount_eq_one h0 h
      simp [hth, h1, flattenLoop]
    · simp [hth]

/-- C2 witness: degenerate curves with zero curvature estimate. -/
theorem flatten_below_third_single_lineTo_witness :
    devSquared (0, 0) (0, 0) (0, 0) < 1 / 3 ∧
      QuadToPoints (0, 0) (0, 0) (0, 0) = [(0, 0)] ∧
      max (devSquared (0, 0) (0, 0) (0, 0)) (devSquared (0, 0) (0, 0) (0, 0)) <
        1 / 3 ∧
      CubeToPoints (0, 0) (0, 0) (0, 0) (0, 0) = [(0, 0)] :=
  ⟨by norm_num [devSquared],
    flatten_below_third_single_lineTo.1 _ _ _ (by norm_num [devSquared]),
    by norm_num [devSquared],
    flatten_below_third_single_lineTo.2 _ _ _ _ (by norm_num [devSquared])⟩

/-- Unrolling the source's incremental-`t` flattening loop: after `i`
iterations the accumulator holds `t + (i+1) * nInv`, so the emitted points
are evaluations at evenly spaced parameters. -/
theorem flattenLoop_eq_map (f : ℚ → Vec2) (nInv : ℚ) :
    ∀ (k : ℕ) (t : ℚ),
      flattenLoop f nInv k t =
        (List.range k).map fun (i : ℕ) => f (t + ((i : ℚ) + 1) * nInv) := by
  intro k
  induction k with
  | zero => intro t; rfl
  | succ m ih =>
    intro t
    rw [flattenLoop, ih, List.range_succ_eq_map, List.map_cons, List.map_map]
    refine congrArg₂ List.cons (by norm_num) ?_
    refine congrArg (fun g => List.map g (List.range m)) ?_
    funext i
    have ht : t + nInv + ((i : ℚ) + 1) * nInv =
        t + ((((i : ℕ).succ : ℕ) : ℚ) + 1) * nInv := by
      push_cast
      ring
    simp only [Function.comp]
    rw [ht]

theorem one_le_segmentCount (q : ℚ) : 1 ≤ segmentCount q :=
  Nat.le_add_right 1 _

/-- C3: whenever the curvature estimate `devsq` is at least `1/3`, the
curve is flattened into exactly `n = 1 + ⌊√√(3 * devsq)⌋` segments
(`segmentCount devsq`): `n - 1` intermediate `LineTo`s at the de Casteljau
evaluations of the original control points at parameters `t = k/n`,
`k = 1, …, n-1`, followed by a final `LineTo` to the endpoint. -/
theorem flatten_above_third_segments :
    (∀ a b c : Vec2, 1 / 3 ≤ devSquared a b c →
      QuadToPoints a b c =
        ((List.range (segmentCount (devSquared a b c) - 1)).map fun (k : ℕ) =>
          deCasteljauQuad a b c
            (((k : ℚ) + 1) / (segmentCount (devSquared a b c) : ℚ))) ++ [c] ∧
      (QuadToPoints a b c).length = segmentCount (devSquared a b c)) ∧
      ∀ a b c d : Vec2, 1 / 3 ≤ max (devSquared a b d) (devSquared a c d) →
        CubeToPoints a b c d =
          ((List.range
            (segmentCount (max (devSquared a b d) (devSquared a c d)) - 1)).map
              fun (k : ℕ) =>
            deCasteljauCube a b c d
              (((k : ℚ) + 1) /
                (segmentCount (max (devSquared a b d) (devSquared a c d)) : ℚ)))
            ++ [d] ∧
        (CubeToPoints a b c d).length =
          segmentCount (max (devSquared a b d) (devSquared a c d)) := by
  have hthr : ∀ q : ℚ, 1 / 3 ≤ q → flattenThreshold ≤ q := fun q hq =>
    le_trans (by norm_num [flattenThreshold]) hq
  constructor
  · intro a b c h
    have hth := hthr _ h
    have hmain : QuadToPoints a b c =
        ((List.range (segmentCount (devSquared a b c) - 1)).map fun (k : ℕ) =>
          deCasteljauQuad a b c
            (((k : ℚ) + 1) / (segmentCount (devSquared a b c) : ℚ))) ++ [c] := by
      unfold QuadToPoints
      simp only [if_pos hth]
      rw [flattenLoop_eq_map]
      refine congrArg (· ++ [c]) ?_
      refine congrArg (fun g => List.map g (List.range _)) ?_
      funext i
      unfold deCasteljauQuad
      have ht : (0 : ℚ) + ((i : ℚ) + 1) * (1 / (segmentCount (devSquared a b c) : ℚ)) =
          ((i : ℚ) + 1) / (segmentCount (devSquared a b c) : ℚ) := by
        ring
      rw [ht]
    refine ⟨hmain, ?_⟩
    rw [hmain]
    have h1 := one_le_segmentCount (devSquared a b c)
    simp [List.length_append, List.length_map, List.length_range]
    omega
  · intro a b c d h
    have hth := hthr _ h
    have hmain : CubeToPoints a b c d =
        ((List.range
          (segmentCount (max (devSquared a b d) (devSquared a c d)) - 1)).map
            fun (k : ℕ) =>
          deCasteljauCube a b c d
            (((k : ℚ) + 1) /
              (segmentCount (max (devSquared a b d) (devSquared a c d)) : ℚ)))
          ++ [d] := by
      unfold CubeToPoints
      simp only [if_pos hth]
      rw [flattenLoop_eq_map]
      refine congrArg (· ++ [d]) ?_
      refine congrArg (fun g => List.map g (List.range _)) ?_
      funext i
      unfold deCasteljauCube
      have ht : (0 : ℚ) + ((i : ℚ) + 1) *
          (1 / (segmentCount (max (devSquared a b d) (devSquared a c d)) : ℚ)) =
          ((i : ℚ) + 1) /
            (segmentCount (max (devSquared a b d) (devSquared a c d)) : ℚ) := by
        ring
      rw [ht]
    refine ⟨hmain, ?_⟩
    rw [hmain]
    have h1 := one_le_segmentCount (max (devSquared a b d) (devSquared a c d))
    simp [List.length_append, List.length_map, List.length_range]
    omega

/-- C3 witness: a quadratic and a cubic with curvature estimate `4 ≥ 1/3`
(hence `n = 1 + ⌊√√12⌋ = 2`). -/
theorem flatten_above_third_segments_witness :
    (1 / 3 ≤ devSquared (0, 0) (1, 0) (0, 0) ∧
      QuadToPoints (0, 0) (1, 0) (0, 0) =
        ((List.range (segmentCount (devSquared (0, 0) (1, 0) (0, 0)) - 1)).map
          fun (k : ℕ) =>
            deCasteljauQuad (0, 0) (1, 0) (0, 0)
              (((k : ℚ) + 1) /
                (segmentCount (devSquared (0, 0) (1, 0) (0, 0)) : ℚ))) ++
          [(0, 0)] ∧
      (QuadToPoints (0, 0) (1, 0) (0, 0)).length =
        segmentCount (devSquared (0, 0) (1, 0) (0, 0))) ∧
      1 / 3 ≤ max (devSquared (0, 0) (1, 0) (0, 0))
          (devSquared (0, 0) (0, 0) (0, 0)) ∧
      CubeToPoints (0, 0) (1, 0) (0, 0) (0, 0) =
        ((List.range
          (segmentCount (max (devSquared (0, 0) (1, 0) (0, 0))
            (devSquared (0, 0) (0, 0) (0, 0))) - 1)).map
            fun (k : ℕ) =>
          deCasteljauCube (0, 0) (1, 0) (0, 0) (0, 0)
            (((k : ℚ) + 1) /
              (segmentCount (max (devSquared (0, 0) (1, 0) (0, 0))
                (devSquared (0, 0) (0, 0) (0, 0))) : ℚ))) ++ [(0, 0)] ∧
      (CubeToPoints (0, 0) (1, 0) (0, 0) (0, 0)).length =
        segmentCount (max (devSquared (0, 0) (1, 0) (0, 0))
          (devSquared (0, 0) (0, 0) (0, 0))) :=
  ⟨⟨by norm_num [devSquared],
      flatten_above_third_segments.1 (0, 0) (1, 0) (0, 0)
        (by norm_num [devSquared])⟩,
    by norm_num [devSquared],
    flatten_above_third_segments.2 (0, 0) (1, 0) (0, 0) (0, 0)
      (by norm_num [devSquared])⟩

/-- C6 counterexample: the generic `Over` path does NOT compute
`src*ma/0xffff + dst*(0xffff - src.a*ma/0xffff)/0xffff` with the two integer
divisions the claim's formula writes.  At `dst` channel `0x8000`, `src`
channel `0x8000`, `src.a = 0xffff`, `ma = 1` the code's single-division sum
`(dr*a + sr*ma)/0xffff` gives `0x8000` while the claim's term-by-term
formula gives `0x7fff`. -/
theorem rasterizeOpOver_formula_counterexample :
    rasterizeOpOverChannel 0x8000 0x8000 0xffff 1 ≠
      0x8000 * 1 / 0xffff +
        0x8000 * (0xffff - 0xffff * 1 / 0xffff) / 0xffff := by
  decide

/-- C6 amended: with 16-bit channel values (and premultiplied sources,
`s ≤ sa`), the generic path computes, in exact integer arithmetic with no
`uint32` wrap-around and no `uint16` truncation,
`out = (dst*(0xffff - src.a*ma/0xffff) + src*ma) / 0xffff` — the claim's
`Over` formula with a single division of the whole sum — under `Over`, and
`out = src*ma/0xffff` (exactly as the claim states) under `Src`. -/
theorem rasterizeOp_channel_formulas (d s sa ma : ℕ) (hs : s ≤ sa)
    (hsa : sa ≤ 0xffff) (hd : d ≤ 0xffff) (hma : ma ≤ 0xffff) :
    rasterizeOpOverChannel d s sa ma =
      (d * (0xffff - sa * ma / 0xffff) + s * ma) / 0xffff ∧
      rasterizeOpSrcChannel s ma = s * ma / 0xffff := by
  have hsma32 : sa * ma < 2 ^ 32 :=
    lt_of_le_of_lt (Nat.mul_le_mul hsa hma) (by norm_num)
  have hsm : sa * ma % 2 ^ 32 = sa * ma := Nat.mod_eq_of_lt hsma32
  have hq65 : sa * ma / 0xffff ≤ 0xffff := by
    calc sa * ma / 0xffff ≤ 0xffff * 0xffff / 0xffff :=
          Nat.div_le_div_right (Nat.mul_le_mul hsa hma)
      _ = 0xffff := by norm_num
  have hdm : sa * ma % 0xffff < 0xffff := Nat.mod_lt _ (by norm_num)
  have hdam := Nat.div_add_mod (sa * ma) 0xffff
  have hsle : s * ma ≤ sa * ma := Nat.mul_le_mul_right ma hs
  have hdle : d * (0xffff - sa * ma / 0xffff) ≤
      0xffff * (0xffff - sa * ma / 0xffff) :=
    Nat.mul_le_mul_right _ hd
  have hdist : 0xffff * (0xffff - sa * ma / 0xffff) +
      0xffff * (sa * ma / 0xffff) = 0xffff * 0xffff := by
    rw [← Nat.mul_add, Nat.sub_add_cancel hq65]
  have hsum : d * (0xffff - sa * ma / 0xffff) + s * ma ≤
      0xffff * 0xffff + 0xfffe := by
    omega
  constructor
  · unfold rasterizeOpOverChannel
    simp only []
    rw [hsm]
    have ha : (0xffff + 2 ^ 32 - sa * ma / 0xffff) % 2 ^ 32 =
        0xffff - sa * ma / 0xffff := by
      have h1 : 0xffff + 2 ^ 32 - sa * ma / 0xffff =
          0xffff - sa * ma / 0xffff + 2 ^ 32 := by omega
      rw [h1, Nat.add_mod_right, Nat.mod_eq_of_lt (by omega)]
    rw [ha, Nat.mod_eq_of_lt (by omega : d * (0xffff - sa * ma / 0xffff) < 2 ^ 32),
      Nat.mod_eq_of_lt (by omega : s * ma < 2 ^ 32),
      Nat.mod_eq_of_lt (by omega :
        d * (0xffff - sa * ma / 0xffff) + s * ma < 2 ^ 32)]
    apply Nat.mod_eq_of_lt
    calc (d * (0xffff - sa * ma / 0xffff) + s * ma) / 0xffff ≤
          (0xffff * 0xffff + 0xfffe) / 0xffff := Nat.div_le_div_right hsum
      _ < 2 ^ 16 := by norm_num
  · unfold rasterizeOpSrcChannel
    rw [Nat.mod_eq_of_lt (by omega : s * ma < 2 ^ 32)]
    apply Nat.mod_eq_of_lt
    calc s * ma / 0xffff ≤ 0xffff * 0xffff / 0xffff :=
          Nat.div_le_div_right (le_trans hsle (Nat.mul_le_mul hsa hma))
      _ < 2 ^ 16 := by norm_num

/-- C6 witness: the amended formulas at a concrete pixel. -/
theorem rasterizeOp_channel_formulas_witness :
    (0x1234 : ℕ) ≤ 0x8000 ∧ (0x8000 : ℕ) ≤ 0xffff ∧
      (0x4321 : ℕ) ≤ 0xffff ∧ (0x0102 : ℕ) ≤ 0xffff ∧
      (rasterizeOpOverChannel 0x4321 0x1234 0x8000 0x0102 =
        (0x4321 * (0xffff - 0x8000 * 0x0102 / 0xffff) + 0x1234 * 0x0102) /
          0xffff ∧
        rasterizeOpSrcChannel 0x1234 0x0102 = 0x1234 * 0x0102 / 0xffff) :=
  ⟨by decide, by decide, by decide, by decide,
    rasterizeOp_channel_formulas 0x4321 0x1234 0x8000 0x0102 (by decide)
      (by decide) (by decide) (by decide)⟩

theorem applyWrites_cons (iv : ℕ × ℕ) (l : List (ℕ × ℕ)) (p : List ℕ) :
    applyWrites (iv :: l) p = applyWrites l (p.set iv.1 iv.2) := rfl

theorem applyWrites_getD_of_not_mem (l : List (ℕ × ℕ)) :
    ∀ (p : List ℕ) (i : ℕ), i ∉ l.map Prod.fst →
      (applyWrites l p).getD i 0 = p.getD i 0 := by
  induction l with
  | nil => intro p i _; rfl
  | cons hd tl ih =>
    intro p i hi
    rw [List.map_cons] at hi
    have h1 : i ≠ hd.1 := fun h => hi (h ▸ List.mem_cons_self _ _)
    have h2 : i ∉ tl.map Prod.fst := fun h => hi (List.mem_cons_of_mem _ h)
    rw [applyWrites_cons, ih _ _ h2, List.getD_eq_getElem?_getD,
      List.getElem?_set_ne (Ne.symm h1), ← List.getD_eq_getElem?_getD]

theorem applyWrites_getD_of_mem (l : List (ℕ × ℕ)) :
    ∀ (p : List ℕ) (i v : ℕ), (l.map Prod.fst).Nodup → (i, v) ∈ l →
      i < p.length → (applyWrites l p).getD i 0 = v := by
  induction l with
  | nil => intro p i v _ hm _; exact absurd hm (List.not_mem_nil _)
  | cons hd tl ih =>
    obtain ⟨j, u⟩ := hd
    intro p i v hnd hm hlen
    rw [List.map_cons, List.nodup_cons] at hnd
    rw [applyWrites_cons]
    rcases List.mem_cons.mp hm with heq | htl
    · injection heq with hij huv
      subst hij
      subst huv
      rw [applyWrites_getD_of_not_mem tl _ _ hnd.1,
        List.getD_eq_getElem?_getD, List.getElem?_set_self hlen,
        Option.getD_some]
    · exact ih _ i v hnd.2 htl (by rw [List.length_set]; exact hlen)

/-- Row-major indices `y * s + x` with `x < s` determine `y` and `x`. -/
theorem rowMajor_inj (s y1 x1 y2 x2 : ℕ) (hx1 : x1 < s) (hx2 : x2 < s)
    (h : y1 * s + x1 = y2 * s + x2) : y1 = y2 ∧ x1 = x2 := by
  have key : ∀ a1 b1 a2 b2 : ℕ, b1 < s → a1 < a2 →
      a1 * s + b1 < a2 * s + b2 := by
    intro a1 b1 a2 b2 hb ha
    have h2 : (a1 + 1) * s ≤ a2 * s :=
      Nat.mul_le_mul_right s (Nat.succ_le_of_lt ha)
    rw [Nat.add_mul, one_mul] at h2
    omega
  have hy : y1 = y2 := by
    rcases Nat.lt_trichotomy y1 y2 with hlt | heq | hgt
    · exact absurd h (Nat.ne_of_lt (key _ _ _ _ hx1 hlt))
    · exact heq
    · exact absurd h.symm (Nat.ne_of_lt (key _ _ _ _ hx2 hgt))
  subst hy
  omega

theorem stagedOpSrcWrites_fst_nodup (buf : List ℕ)
    (w off stride dx dy : ℕ) (hdx : dx ≤ stride) :
    ((stagedOpSrcWrites buf w off stride dx dy).map Prod.fst).Nodup := by
  unfold stagedOpSrcWrites
  rw [List.map_map]
  apply List.Nodup.map_on
  · intro p hp q hq hpq
    obtain ⟨hp1, hp2⟩ := List.mem_product.mp (by
      rw [← Prod.mk.eta (p := p)] at hp; exact hp)
    obtain ⟨hq1, hq2⟩ := List.mem_product.mp (by
      rw [← Prod.mk.eta (p := q)] at hq; exact hq)
    simp only [Function.comp] at hpq
    have h1 : p.1 * stride + p.2 = q.1 * stride + q.2 := by omega
    have h2 := rowMajor_inj stride p.1 p.2 q.1 q.2
      (lt_of_lt_of_le (List.mem_range.mp hp2) hdx)
      (lt_of_lt_of_le (List.mem_range.mp hq2) hdx) h1
    exact Prod.ext h2.1 h2.2
  · exact List.Nodup.product (List.nodup_range dy) (List.nodup_range dx)

theorem stagedOpSrcWrites_mem (buf : List ℕ) (w off stride dx dy y x : ℕ)
    (hy : y < dy) (hx : x < dx) :
    (off + y * stride + x, buf.getD (y * w + x) 0 >>> 8 % 256) ∈
      stagedOpSrcWrites buf w off stride dx dy := by
  unfold stagedOpSrcWrites
  exact List.mem_map.mpr ⟨(y, x),
    List.mem_product.mpr ⟨List.mem_range.mpr hy, List.mem_range.mpr hx⟩, rfl⟩

theorem mask16F_le (a : ℚ) : mask16F a ≤ 0xffff := by
  unfold mask16F
  rw [Int.toNat_le, round_eq]
  have h2 : min |a| 1 ≤ 1 := min_le_right _ _
  have h1 : min |a| 1 * (0xffff : ℚ) ≤ 0xffff := by nlinarith
  have h3 : ⌊min |a| 1 * (0xffff : ℚ) + 1 / 2⌋ ≤ ⌊(0xffff : ℚ) + 1 / 2⌋ :=
    Int.floor_le_floor (by linarith)
  have h4 : ⌊(0xffff : ℚ) + 1 / 2⌋ = 0xffff := by
    rw [Int.floor_eq_iff]
    norm_num
  omega

theorem mask16U_le (a : ℤ) : mask16U a ≤ 0xffff := by
  unfold mask16U fixedScale
  have h1 : min a.natAbs (2 ^ 12) ≤ 2 ^ 12 := min_le_right _ _
  have h2 : min a.natAbs (2 ^ 12) * 0xffff ≤ 2 ^ 12 * 0xffff :=
    Nat.mul_le_mul_right _ h1
  calc (min a.natAbs (2 ^ 12) * 0xffff + 2 ^ 12 / 2) / 2 ^ 12 ≤
        (2 ^ 12 * 0xffff + 2 ^ 12 / 2) / 2 ^ 12 :=
        Nat.div_le_div_right (by omega)
    _ = 0xffff := by norm_num

theorem rowsMaskF_le (w : ℕ) : ∀ (hh : ℕ) (buf : List ℚ),
    ∀ m ∈ rowsMaskF w hh buf, m ≤ 0xffff := by
  intro hh
  induction hh with
  | zero => intro buf m hm; exact absurd hm (List.not_mem_nil m)
  | succ k ih =>
    intro buf m hm
    rw [rowsMaskF] at hm
    rcases List.mem_append.mp hm with h | h
    · obtain ⟨a, _, ha⟩ := List.mem_map.mp h
      exact ha ▸ mask16F_le a
    · exact ih _ m h

theorem rowsMaskU_le (w : ℕ) : ∀ (hh : ℕ) (buf : List ℕ),
    ∀ m ∈ rowsMaskU w hh buf, m ≤ 0xffff := by
  intro hh
  induction hh with
  | zero => intro buf m hm; exact absurd hm (List.not_mem_nil m)
  | succ k ih =>
    intro buf m hm
    rw [rowsMaskU] at hm
    rcases List.mem_append.mp hm with h | h
    · obtain ⟨a, _, ha⟩ := List.mem_map.mp h
      exact ha ▸ mask16U_le a
    · exact ih _ m h

/-- Every accumulated mask value is at most `0xffff` (the spec's coverage
bound). -/
theorem maskValues_le (z : Rasterizer) : ∀ m ∈ maskValues z, m ≤ 0xffff := by
  unfold maskValues
  split
  · exact rowsMaskF_le _ _ _
  · exact rowsMaskU_le _ _ _

theorem maskValues_getD_le (z : Rasterizer) (i : ℕ) :
    (maskValues z).getD i 0 ≤ 0xffff := by
  by_cases h : i < (maskValues z).length
  · rw [List.getD_eq_getElem _ _ h]
    exact maskValues_le z _ (List.getElem_mem h)
  · rw [List.getD_eq_default _ _ (le_of_not_lt h)]
    omega

theorem shr8_mod256 (m : ℕ) (hm : m ≤ 0xffff) : m >>> 8 % 256 = m >>> 8 := by
  apply Nat.mod_eq_of_lt
  rw [Nat.shiftRight_eq_div_pow]
  exact lt_of_le_of_lt (Nat.div_le_div_right hm) (by norm_num)

/-- C8: with a fully opaque uniform source, an 8-bit alpha destination and
`DrawOp = Src`, each destination byte inside `r` is set to the accumulated
16-bit mask value of the corresponding pixel shifted right by 8 — both on
the fused fast path (`r` equal to both the destination bounds and the
rasterizer bounds, no separate `accumulateMask` pass) and on the staged
path, which runs `accumulateMask` and copies `uint8(ma >> 8)` pixel by
pixel.  `Draw` dispatches to this function when the source is uniform with
`srcA = 0xffff`, the destination is `*image.Alpha` and `DrawOp ≠ Over`
(vector.go lines 276–288). -/
theorem opSrc_alpha_bytes_are_mask_shr8 :
    (∀ (z : Rasterizer) (dst : Alpha) (r : Rect) (k : ℕ),
      r = dst.Bounds → r = z.Bounds → k < (maskValues z).length →
      (z.rasterizeDstAlphaSrcOpaqueOpSrc dst r).pix.getD k 0 =
        z.accumulateMask.bufU32.getD k 0 >>> 8) ∧
      ∀ (z : Rasterizer) (dst : Alpha) (r : Rect) (x y : ℕ),
        ¬(r = dst.Bounds ∧ r = z.Bounds) →
        x < (r.max.1 - r.min.1).toNat → y < (r.max.2 - r.min.2).toNat →
        (r.max.1 - r.min.1).toNat ≤ dst.stride.toNat →
        (dst.PixOffset r.min.1 r.min.2).toNat +
            (r.max.2 - r.min.2).toNat * dst.stride.toNat ≤ dst.pix.length →
        (z.rasterizeDstAlphaSrcOpaqueOpSrc dst r).pix.getD
            ((dst.PixOffset r.min.1 r.min.2).toNat + y * dst.stride.toNat + x)
            0 =
          z.accumulateMask.bufU32.getD (y * z.size.1.toNat + x) 0 >>> 8 := by
  constructor
  · intro z dst r k h1 h2 hk
    have hpix : (z.rasterizeDstAlphaSrcOpaqueOpSrc dst r).pix =
        accumulateOpSrcBytes z ++
          dst.pix.drop (accumulateOpSrcBytes z).length := by
      unfold Rasterizer.rasterizeDstAlphaSrcOpaqueOpSrc
      rw [if_pos ⟨h1, h2⟩]
    have hlen : k < (accumulateOpSrcBytes z).length := by
      unfold accumulateOpSrcBytes
      rw [List.length_map]
      exact hk
    rw [hpix, List.getD_append _ _ _ _ hlen]
    unfold accumulateOpSrcBytes at hlen ⊢
    rw [List.getD_eq_getElem _ _ hlen, List.getElem_map]
    have hbu : z.accumulateMask.bufU32 = maskValues z := rfl
    rw [hbu, List.getD_eq_getElem _ _ hk]
    exact shr8_mod256 _ (maskValues_le z _ (List.getElem_mem hk))
  · intro z dst r x y hneg hx hy hdx hb
    have hpix : (z.rasterizeDstAlphaSrcOpaqueOpSrc dst r).pix =
        applyWrites
          (stagedOpSrcWrites z.accumulateMask.bufU32 z.size.1.toNat
            (dst.PixOffset r.min.1 r.min.2).toNat dst.stride.toNat
            (r.max.1 - r.min.1).toNat (r.max.2 - r.min.2).toNat)
          dst.pix := by
      unfold Rasterizer.rasterizeDstAlphaSrcOpaqueOpSrc
      rw [if_neg hneg]
    have hidx : (dst.PixOffset r.min.1 r.min.2).toNat +
        y * dst.stride.toNat + x < dst.pix.length := by
      have h2 : (y + 1) * dst.stride.toNat ≤
          (r.max.2 - r.min.2).toNat * dst.stride.toNat :=
        Nat.mul_le_mul_right _ (Nat.succ_le_of_lt hy)
      rw [Nat.add_mul, one_mul] at h2
      set A := y * dst.stride.toNat with hA
      set B := (r.max.2 - r.min.2).toNat * dst.stride.toNat with hB
      omega
    rw [hpix, applyWrites_getD_of_mem _ _ _ _
      (stagedOpSrcWrites_fst_nodup _ _ _ _ _ _ hdx)
      (stagedOpSrcWrites_mem _ _ _ _ _ _ y x hy hx) hidx]
    have hbu : z.accumulateMask.bufU32 = maskValues z := rfl
    rw [hbu]
    exact shr8_mod256 _ (maskValues_getD_le z _)

/-- A 1×1 rasterizer with full fixed-point coverage, for the C8 witness. -/
def maskSampleZ : Rasterizer := { size := (1, 1), bufU32 := [4096] }

/-- A 1×1 alpha destination matching `maskSampleZ`, for the C8 witness. -/
def fusedSampleDst : Alpha :=
  { pix := [7], stride := 1, rect := { max := (1, 1) } }

/-- A 2×1 alpha destination, wider than `maskSampleZ`, for the C8 staged
witness. -/
def stagedSampleDst : Alpha :=
  { pix := [9, 9], stride := 2, rect := { max := (2, 1) } }

/-- The 1×1 draw rectangle of the C8 witness. -/
def sampleRect : Rect := { max := (1, 1) }

/-- C8 witness: both the fused path (1×1 destination equal to the
rasterizer bounds) and the staged path (2×1 destination) at concrete
inputs. -/
theorem opSrc_alpha_bytes_are_mask_shr8_witness :
    (sampleRect = fusedSampleDst.Bounds ∧ sampleRect = maskSampleZ.Bounds ∧
      0 < (maskValues maskSampleZ).length ∧
      (maskSampleZ.rasterizeDstAlphaSrcOpaqueOpSrc fusedSampleDst
          sampleRect).pix.getD 0 0 =
        maskSampleZ.accumulateMask.bufU32.getD 0 0 >>> 8) ∧
      ¬(sampleRect = stagedSampleDst.Bounds ∧
          sampleRect = maskSampleZ.Bounds) ∧
      (maskSampleZ.rasterizeDstAlphaSrcOpaqueOpSrc stagedSampleDst
          sampleRect).pix.getD
          ((stagedSampleDst.PixOffset sampleRect.min.1 sampleRect.min.2).toNat +
            0 * stagedSampleDst.stride.toNat + 0) 0 =
        maskSampleZ.accumulateMask.bufU32.getD
          (0 * maskSampleZ.size.1.toNat + 0) 0 >>> 8 :=
  ⟨⟨by decide, by decide, by decide,
      opSrc_alpha_bytes_are_mask_shr8.1 maskSampleZ fusedSampleDst sampleRect 0
        (by decide) (by decide) (by decide)⟩,
    by decide,
    opSrc_alpha_bytes_are_mask_shr8.2 maskSampleZ stagedSampleDst sampleRect 0 0
      (by decide) (by decide) (by decide) (by decide) (by decide)⟩

end VectorGfx
